import Mathlib

/-!
Verification of the crashfeishu supervisord event listener (src/lib.rs).

The development shallowly embeds the core of the program: the token-set
codec (parse_token_set), the allow-list matcher (should_monitor), the
webhook resolution (get_webhook_url), the event-listener protocol
(ready / ok / fail / send / wait) and the per-cycle classification logic
of the run loop.  Lean strings model Rust strings; raw bytes are lists of
naturals below 256; fallible operations (Rust panics, propagated errors)
return Option, with none standing for the fatal paths.
-/

/-- Whitespace test used by the trimming step; models Rust
char::is_whitespace, i.e. the Unicode White_Space property (the ASCII
whitespace characters, NEL, no-break spaces, the ogham space mark, the
typographic spaces, the line and paragraph separators and the ideographic
space). -/
def isWsp (c : Char) : Bool :=
  (0x09 ≤ c.toNat && c.toNat ≤ 0x0D) || c.toNat = 0x20 || c.toNat = 0x85 ||
    c.toNat = 0xA0 || c.toNat = 0x1680 ||
    (0x2000 ≤ c.toNat && c.toNat ≤ 0x200A) || c.toNat = 0x2028 ||
    c.toNat = 0x2029 || c.toNat = 0x202F || c.toNat = 0x205F ||
    c.toNat = 0x3000

/-- Strip leading and trailing whitespace from a character list; models
Rust str::trim as used in parse_token_set. -/
def trimChars (cs : List Char) : List Char :=
  ((cs.dropWhile isWsp).reverse.dropWhile isWsp).reverse

/-- Split a character list on every single space character, keeping empty
segments; models Rust str::split(' '). -/
def splitSp : List Char → List (List Char)
  | [] => [[]]
  | c :: rest =>
    if c = ' ' then [] :: splitSp rest
    else
      match splitSp rest with
      | [] => [[c]]
      | t :: ts => (c :: t) :: ts

/-- Split a character list at the first colon, returning the parts before
and after it; models Rust str::split_once(':'). -/
def splitFirstColon : List Char → Option (List Char × List Char)
  | [] => none
  | c :: rest =>
    if c = ':' then some ([], rest)
    else
      match splitFirstColon rest with
      | none => none
      | some kv => some (c :: kv.1, kv.2)

/-- The non-empty space-separated segments of a trimmed line; the segment
pipeline of parse_token_set before the per-segment colon split. -/
def segmentsOf (cs : List Char) : List (List Char) :=
  (splitSp (trimChars cs)).filter (fun s => !s.isEmpty)

/-- Split one segment into a key/value string pair at its first colon;
none models the unwrap panic on a segment without a colon. -/
def splitOnceColon (s : List Char) : Option (String × String) :=
  (splitFirstColon s).map (fun kv => (String.mk kv.1, String.mk kv.2))

/-- The token-set mapping, modelling Rust HashMap of String to String as an
association list whose keys are pairwise distinct. -/
abbrev TokenSet := List (String × String)

/-- Insert a key/value pair, replacing the value in place when the key is
already present; models HashMap::insert as performed by collect. -/
def tsInsert (m : TokenSet) (k v : String) : TokenSet :=
  if m.any (fun p => p.1 == k) then
    m.map (fun p => if p.1 == k then (k, v) else p)
  else m ++ [(k, v)]

/-- Look a key up in a token set; models HashMap lookup (some/none instead
of the panicking index operator). -/
def tsFind (m : TokenSet) (k : String) : Option String :=
  (m.find? (fun p => p.1 == k)).map (fun p => p.2)

/-- Map the per-segment colon split over a segment list, failing as soon
as one segment fails; models the map step of parse_token_set, where the
unwrap panic aborts the whole decode. -/
def mapTokens : List (List Char) → Option (List (String × String))
  | [] => some []
  | s :: rest =>
    match splitOnceColon s with
    | none => none
    | some p =>
      match mapTokens rest with
      | none => none
      | some ps => some (p :: ps)

/-- The token-set decoder of src/lib.rs: trim the line, split on single
spaces, discard empty segments, split each segment at its first colon and
collect into a map; none models the unwrap panic on a colon-free
segment. -/
def parse_token_set (line : String) : Option TokenSet :=
  (mapTokens (segmentsOf line.data)).map
    (fun ps => ps.foldl (fun m kv => tsInsert m kv.1 kv.2) [])

/-- Tail of the reference decoder: insert the pairs of the remaining
segments one by one, last write winning. -/
def decodeSpecGo : List (List Char) → TokenSet → Option TokenSet
  | [], m => some m
  | s :: rest, m =>
    match splitFirstColon s with
    | none => none
    | some kv => decodeSpecGo rest (tsInsert m (String.mk kv.1) (String.mk kv.2))

/-- Reference decoder following the specification text: trim, split on
single spaces, discard empty segments, split each remaining segment into
key and value at its first colon only, and insert into the mapping with
last write winning on a repeated key. -/
def decodeSpec (line : String) : Option TokenSet :=
  decodeSpecGo (segmentsOf line.data) []

/-- Colon test on a string's characters; models Rust str::contains(':'). -/
def containsColon (s : String) : Bool := s.data.any (fun c => c == ':')

/-- The allow-list matcher of src/lib.rs: an empty list matches every
name; an entry with a colon must equal the qualified name exactly; a bare
entry v matches the qualified name v:v. -/
def should_monitor (full_name : String) (program : List String) : Bool :=
  if program.isEmpty then true
  else
    program.any (fun value =>
      if containsColon value then value == full_name
      else (value ++ ":" ++ value) == full_name)

/-- Webhook resolution of src/lib.rs: the command-line value wins when
present; otherwise the environment value is used unless it is unset or
empty. -/
def get_webhook_url (argWebhook : Option String) (envWebhook : Option String) :
    Option String :=
  argWebhook.orElse (fun _ =>
    (envWebhook.bind (fun s => if s = "" then none else some s)))

/-- Continuation-byte test of the UTF-8 decoder. -/
def isCont (b : Nat) : Bool := 0x80 ≤ b && b < 0xC0

/-- Decode one UTF-8 scalar from the front of a byte list, returning the
character and the remaining bytes; models the per-scalar validation of
Rust String::from_utf8 (continuation bytes, overlong encodings,
surrogates and out-of-range values are rejected). -/
def utf8Step : List Nat → Option (Char × List Nat)
  | [] => none
  | b :: rest =>
    if b < 0x80 then some (Char.ofNat b, rest)
    else if b < 0xC2 then none
    else if b < 0xE0 then
      match rest with
      | b1 :: rest1 =>
        if isCont b1 then
          some (Char.ofNat ((b - 0xC0) * 0x40 + (b1 - 0x80)), rest1)
        else none
      | [] => none
    else if b < 0xF0 then
      match rest with
      | b1 :: b2 :: rest2 =>
        if isCont b1 && isCont b2 then
          let c := (b - 0xE0) * 0x1000 + (b1 - 0x80) * 0x40 + (b2 - 0x80)
          if c < 0x800 || (0xD800 ≤ c && c < 0xE000) then none
          else some (Char.ofNat c, rest2)
        else none
      | _ => none
    else if b < 0xF5 then
      match rest with
      | b1 :: b2 :: b3 :: rest3 =>
        if isCont b1 && isCont b2 && isCont b3 then
          let c := (b - 0xF0) * 0x40000 + (b1 - 0x80) * 0x1000 +
            (b2 - 0x80) * 0x40 + (b3 - 0x80)
          if c < 0x10000 || 0x110000 ≤ c then none
          else some (Char.ofNat c, rest3)
        else none
      | _ => none
    else none

/-- Fuelled UTF-8 decoding loop; every step consumes at least one byte, so
fuel equal to the length of the input is always sufficient. -/
def utf8DecodeFuel : Nat → List Nat → Option (List Char)
  | _, [] => some []
  | 0, _ :: _ => none
  | fuel + 1, b :: rest =>
    match utf8Step (b :: rest) with
    | none => none
    | some cr =>
      match utf8DecodeFuel fuel cr.2 with
      | none => none
      | some cs => some (cr.1 :: cs)

/-- Decode a byte list as UTF-8 text; models Rust String::from_utf8, with
none standing for a Utf8Error. -/
def utf8Decode (bs : List Nat) : Option String :=
  (utf8DecodeFuel bs.length bs).map String.mk

/-- Models Rust str::parse for usize: an optional leading plus sign
followed by one or more ASCII digits, rejecting values that do not fit in
a 64-bit usize; none stands for a ParseIntError. -/
def parseUsize (s : String) : Option Nat :=
  let ds := match s.data with
    | '+' :: rest => rest
    | cs => cs
  if ds.isEmpty || !ds.all (fun c => c.isDigit) then none
  else
    let n := ds.foldl (fun acc c => acc * 10 + (c.toNat - '0'.toNat)) 0
    if n < 2 ^ 64 then some n else none

/-- Read one newline-terminated line of bytes from the front of a stream,
including the terminating newline, or everything up to end of input when
no newline occurs; models BufRead::read_line's byte consumption. -/
def takeLine : List Nat → List Nat × List Nat
  | [] => ([], [])
  | b :: rest =>
    if b = 10 then ([b], rest)
    else
      let p := takeLine rest
      (b :: p.1, p.2)

namespace EventListenerProtocol

/-- The bytes written by ready: the literal line READY with its
newline. -/
def readyString : String := "READY\n"

/-- The reply written by send for a given body: the literal RESULT, a
space, the decimal byte length of the body, a newline, then the body with
no trailing newline. -/
def sendString (data : String) : String :=
  "RESULT " ++ toString data.utf8ByteSize ++ "\n" ++ data

/-- The acknowledgement written by ok. -/
def okString : String := sendString "OK"

/-- The acknowledgement written by fail. -/
def failString : String := sendString "FAIL"

/-- One wait call over a byte-level input stream: the first component is
the output written (always the ready line, written before any read); the
second is the result — decoded headers, payload bytes and remaining
input — with none modelling the fatal paths (read error, token-set
panic, missing len key, non-numeric len, short read of the payload). -/
def wait (input : List Nat) : String × Option (TokenSet × List Nat × List Nat) :=
  (readyString,
    let lr := takeLine input
    match utf8Decode lr.1 with
    | none => none
    | some line =>
      match parse_token_set line with
      | none => none
      | some headers =>
        match tsFind headers "len" with
        | none => none
        | some lenStr =>
          match parseUsize lenStr with
          | none => none
          | some len =>
            if len ≤ lr.2.length then some (headers, lr.2.take len, lr.2.drop len)
            else none)

end EventListenerProtocol

/-- The acknowledgement selected by a run-loop cycle. -/
inductive Ack where
  | ok : Ack
  | fail : Ack
deriving DecidableEq

/-- Observable outcome of one completed run-loop cycle: the
acknowledgement written, and, when the Notifier was invoked, the message
handed to it together with the Notifier's success flag. -/
structure CycleOut where
  ack : Ack
  notified : Option (String × Bool)
deriving DecidableEq

/-- The alert message rendered by the run loop for an unexpected exit. -/
def renderAlert (pn gn pid fs : String) : String :=
  "Process " ++ pn ++ " in group " ++ gn ++ " exited unexpectedly (pid " ++
    pid ++ ") from state " ++ fs

/-- One iteration of the run loop of src/lib.rs after a frame has been
received: classify the event, optionally invoke the Notifier, and choose
the acknowledgement.  notify models the push_feishu capability (true for
success, false for a delivery failure that is only logged).  none models
the fatal paths: a missing required key (panicking index), a payload that
is not UTF-8, a malformed token set, or a non-numeric expected field. -/
def cycleStep (program : List String) (webhook : Option String)
    (notify : String → Bool) (headers : TokenSet) (payload : List Nat) :
    Option CycleOut :=
  match tsFind headers "eventname" with
  | none => none
  | some en =>
    if en ≠ "PROCESS_STATE_EXITED" then some ⟨Ack.ok, none⟩
    else
      match utf8Decode payload with
      | none => none
      | some ptext =>
        match parse_token_set ptext with
        | none => none
        | some pset =>
          match tsFind pset "expected" with
          | none => none
          | some expStr =>
            match parseUsize expStr with
            | none => none
            | some expN =>
              if expN = 1 then some ⟨Ack.ok, none⟩
              else
                match tsFind pset "groupname", tsFind pset "processname" with
                | some gn, some pn =>
                  if !should_monitor (gn ++ ":" ++ pn) program then
                    some ⟨Ack.ok, none⟩
                  else
                    match tsFind pset "pid", tsFind pset "from_state" with
                    | some pid, some fs =>
                      match webhook with
                      | some _ =>
                        some ⟨Ack.ok, some (renderAlert pn gn pid fs,
                          notify (renderAlert pn gn pid fs))⟩
                      | none => some ⟨Ack.ok, none⟩
                    | _, _ => none
                | _, _ => none

/-- Byte-level encoding of an ASCII string, used to build concrete
payloads. -/
def asciiBytes (s : String) : List Nat := s.data.map Char.toNat

/-- Join segments with single spaces; the character-level core of the
encoder used to state the codec round-trip. -/
def joinSegs : List (List Char) → List Char
  | [] => []
  | [s] => s
  | s :: rest => s ++ ' ' :: joinSegs rest

/-- Encode a list of key/value pairs as one space-separated key:value
line, the encoding named by the codec round-trip property. -/
def encodeAsLine (ps : List (String × String)) : String :=
  String.mk (joinSegs (ps.map (fun kv => kv.1.data ++ ':' :: kv.2.data)))

theorem splitOnceColon_eq_none (s : List Char) :
    splitOnceColon s = none ↔ splitFirstColon s = none := by
  simp [splitOnceColon]

theorem splitFirstColon_eq_none_iff (s : List Char) :
    splitFirstColon s = none ↔ ':' ∉ s := by
  induction s with
  | nil => simp [splitFirstColon]
  | cons c rest ih =>
    by_cases hc : c = ':'
    · subst hc; simp [splitFirstColon]
    · rw [splitFirstColon, if_neg hc]
      cases h : splitFirstColon rest with
      | none =>
        simp only [List.mem_cons]
        constructor
        · intro _
          rintro (h1 | h2)
          · exact hc h1.symm
          · exact (ih.mp h) h2
        · intro _; trivial
      | some kv =>
        have hmem : ':' ∈ rest := by
          by_contra hnot
          rw [← ih] at hnot
          simp [h] at hnot
        simp [List.mem_cons, hmem]

theorem mapTokens_eq_none_iff (segs : List (List Char)) :
    mapTokens segs = none ↔ ∃ s ∈ segs, splitFirstColon s = none := by
  induction segs with
  | nil => simp [mapTokens]
  | cons s rest ih =>
    rw [mapTokens]
    cases hs : splitOnceColon s with
    | none =>
      have := (splitOnceColon_eq_none s).mp hs
      simp [this]
    | some p =>
      have hsome : ¬splitFirstColon s = none := by
        intro hn
        rw [← splitOnceColon_eq_none] at hn
        simp [hs] at hn
      cases hr : mapTokens rest with
      | none =>
        have := ih.mp hr
        simp only [List.mem_cons]
        constructor
        · intro _
          obtain ⟨x, hx, hnone⟩ := this
          exact ⟨x, Or.inr hx, hnone⟩
        · intro _; trivial
      | some ps =>
        rw [hr] at ih
        simp only [List.mem_cons]
        constructor
        · intro hcontra; cases hcontra
        · rintro ⟨x, hx | hx, hnone⟩
          · subst hx; exact absurd hnone hsome
          · exact absurd (ih.mpr ⟨x, hx, hnone⟩) (by simp)

theorem decodeSpecGo_eq (segs : List (List Char)) :
    ∀ m : TokenSet, decodeSpecGo segs m =
      (mapTokens segs).map
        (fun ps => ps.foldl (fun a kv => tsInsert a kv.1 kv.2) m) := by
  induction segs with
  | nil => intro m; simp [decodeSpecGo, mapTokens]
  | cons s rest ih =>
    intro m
    rw [decodeSpecGo, mapTokens]
    cases h : splitFirstColon s with
    | none => simp [splitOnceColon, h]
    | some kv =>
      have hs : splitOnceColon s = some (String.mk kv.1, String.mk kv.2) := by
        simp [splitOnceColon, h]
      rw [hs]
      dsimp only
      rw [ih (tsInsert m (String.mk kv.1) (String.mk kv.2))]
      cases hr : mapTokens rest with
      | none => simp
      | some ps => simp

/-- C1: every acknowledgement written by the protocol has the exact wire
form RESULT, a space, the decimal byte length of the body, a newline,
then the body with no trailing newline, the body being the literal OK or
the literal FAIL; acknowledging OK emits exactly the 11 bytes of
RESULT 2, newline, OK, and acknowledging FAIL emits exactly RESULT 4,
newline, FAIL. -/
theorem C1_ack_wire_format :
    EventListenerProtocol.okString = "RESULT 2\nOK" ∧
    EventListenerProtocol.okString.utf8ByteSize = 11 ∧
    EventListenerProtocol.failString = "RESULT 4\nFAIL" ∧
    EventListenerProtocol.failString.utf8ByteSize = 13 ∧
    (∀ data : String, EventListenerProtocol.sendString data =
      "RESULT " ++ toString data.utf8ByteSize ++ "\n" ++ data) :=
  ⟨by decide, by decide, by decide, by decide, fun _ => rfl⟩

/-- C3: the matcher accepts a qualified name exactly when the allow-list
is empty, or some entry with a colon equals the name exactly, or some
bare entry v satisfies v:v equal to the name; matching is exact and
case-sensitive, so p:p matches the bare entry p while g:p does not. -/
theorem C3_should_monitor_iff :
    (∀ (q : String) (l : List String),
      should_monitor q l = true ↔
        l = [] ∨ ∃ s ∈ l, (containsColon s = true ∧ s = q) ∨
          (containsColon s = false ∧ s ++ ":" ++ s = q)) ∧
    should_monitor "p:p" ["p"] = true ∧
    should_monitor "g:p" ["p"] = false := by
  refine ⟨?_, by decide, by decide⟩
  intro q l
  cases l with
  | nil => simp [should_monitor]
  | cons a as =>
    simp only [should_monitor, List.isEmpty_cons, Bool.false_eq_true, if_false,
      List.any_eq_true]
    constructor
    · rintro ⟨s, hs, hp⟩
      refine Or.inr ⟨s, hs, ?_⟩
      by_cases hc : containsColon s = true
      · rw [if_pos hc] at hp
        exact Or.inl ⟨hc, by simpa using hp⟩
      · rw [if_neg hc] at hp
        exact Or.inr ⟨by simpa using hc, by simpa using hp⟩
    · rintro (h | ⟨s, hs, ⟨hc, hq⟩ | ⟨hc, hq⟩⟩)
      · exact absurd h (by simp)
      · subst hq; exact ⟨s, hs, by simp [hc]⟩
      · refine ⟨s, hs, ?_⟩
        rw [← hq, if_neg (by simp [hc])]
        simp

/-- C4: the decoder of the code agrees with the reference decoder of the
specification (trim, split on single spaces, discard empty segments,
split each segment at its first colon only, insert with last write
winning) — in fact on every input line, and values keep colons past the
first, as in the url example. -/
theorem C4_decode_matches_reference :
    (∀ line : String, parse_token_set line = decodeSpec line) ∧
    parse_token_set "url:http://x:8080" = some [("url", "http://x:8080")] ∧
    tsFind [("url", "http://x:8080")] "url" = some "http://x:8080" := by
  refine ⟨?_, by decide, by decide⟩
  intro line
  rw [parse_token_set, decodeSpec, decodeSpecGo_eq]

/-- C5: decoding a line fails (no token set is produced) exactly when,
after trimming and discarding empty segments, some segment contains no
colon; on every other input decoding succeeds. -/
theorem C5_decode_failure_iff :
    ∀ line : String,
      parse_token_set line = none ↔ ∃ s ∈ segmentsOf line.data, ':' ∉ s := by
  intro line
  unfold parse_token_set
  rw [Option.map_eq_none', mapTokens_eq_none_iff]
  exact exists_congr fun s =>
    and_congr_right fun _ => splitFirstColon_eq_none_iff s

theorem C5_decode_failure_iff_witness : parse_token_set "abc" = none :=
  (C5_decode_failure_iff "abc").mpr (by decide)

/-- C10: the command-line webhook always wins, even when it is the empty
string, while an environment value equal to the empty string counts as
absent. -/
theorem C10_webhook_precedence :
    (∀ (w : String) (env : Option String), get_webhook_url (some w) env = some w) ∧
    get_webhook_url (some "") (some "envvalue") = some "" ∧
    get_webhook_url none (some "") = none ∧
    (∀ v : String, v ≠ "" → get_webhook_url none (some v) = some v) ∧
    get_webhook_url none none = none := by
  refine ⟨fun w env => rfl, rfl, by decide, ?_, rfl⟩
  intro v hv
  simp [get_webhook_url, Option.orElse, hv]

theorem C10_webhook_precedence_witness :
    get_webhook_url none (some "http") = some "http" :=
  C10_webhook_precedence.2.2.2.1 "http" (by decide)

theorem takeLine_append (lineBytes rest : List Nat) (h : 10 ∉ lineBytes) :
    takeLine (lineBytes ++ 10 :: rest) = (lineBytes ++ [10], rest) := by
  induction lineBytes with
  | nil => simp [takeLine]
  | cons b bs ih =>
    have hb : b ≠ 10 := by
      intro hb
      exact h (hb ▸ List.mem_cons_self b bs)
    have hm : 10 ∉ bs := fun hmem => h (List.mem_cons_of_mem _ hmem)
    simp [takeLine, hb, ih hm]

/-- C2: a wait cycle writes the ready line to the output first and
unconditionally; the newline-terminated header line is decoded with the
token-set codec, its len header is parsed as an unsigned integer, exactly
len raw bytes are then consumed verbatim as the payload with no further
line splitting, and the headers are returned with that payload; a missing
len key or a non-numeric len value is fatal. -/
theorem C2_wait_protocol :
    (∀ input : List Nat, (EventListenerProtocol.wait input).1 = "READY\n") ∧
    (∀ (lineBytes rest : List Nat) (line : String) (headers : TokenSet)
      (lenStr : String) (len : Nat),
      10 ∉ lineBytes →
      utf8Decode (lineBytes ++ [10]) = some line →
      parse_token_set line = some headers →
      tsFind headers "len" = some lenStr →
      parseUsize lenStr = some len →
      len ≤ rest.length →
      (EventListenerProtocol.wait (lineBytes ++ 10 :: rest)).2 =
        some (headers, rest.take len, rest.drop len)) ∧
    (∀ (lineBytes rest : List Nat) (line : String) (headers : TokenSet),
      10 ∉ lineBytes →
      utf8Decode (lineBytes ++ [10]) = some line →
      parse_token_set line = some headers →
      tsFind headers "len" = none →
      (EventListenerProtocol.wait (lineBytes ++ 10 :: rest)).2 = none) ∧
    (∀ (lineBytes rest : List Nat) (line : String) (headers : TokenSet)
      (lenStr : String),
      10 ∉ lineBytes →
      utf8Decode (lineBytes ++ [10]) = some line →
      parse_token_set line = some headers →
      tsFind headers "len" = some lenStr →
      parseUsize lenStr = none →
      (EventListenerProtocol.wait (lineBytes ++ 10 :: rest)).2 = none) := by
  refine ⟨fun input => rfl, ?_, ?_, ?_⟩
  · intro lineBytes rest line headers lenStr len hnl hdec hparse hlen hn hle
    simp [EventListenerProtocol.wait, takeLine_append lineBytes rest hnl,
      hdec, hparse, hlen, hn, hle]
  · intro lineBytes rest line headers hnl hdec hparse hlen
    simp [EventListenerProtocol.wait, takeLine_append lineBytes rest hnl,
      hdec, hparse, hlen]
  · intro lineBytes rest line headers lenStr hnl hdec hparse hlen hn
    simp [EventListenerProtocol.wait, takeLine_append lineBytes rest hnl,
      hdec, hparse, hlen, hn]

theorem C2_wait_protocol_witness :
    (EventListenerProtocol.wait
      (asciiBytes "len:5 event:PROCESS_STATE_EXITED" ++ 10 :: asciiBytes "Hello")).2 =
      some ([("len", "5"), ("event", "PROCESS_STATE_EXITED")],
        (asciiBytes "Hello").take 5, (asciiBytes "Hello").drop 5) :=
  C2_wait_protocol.2.1 (asciiBytes "len:5 event:PROCESS_STATE_EXITED")
    (asciiBytes "Hello") "len:5 event:PROCESS_STATE_EXITED\n"
    [("len", "5"), ("event", "PROCESS_STATE_EXITED")] "5" 5
    (by decide) (by decide) (by decide) (by decide) (by decide) (by decide)

theorem cycleStep_ack_eq_ok (program : List String) (webhook : Option String)
    (notify : String → Bool) (headers : TokenSet) (payload : List Nat) :
    ∀ out : CycleOut, cycleStep program webhook notify headers payload = some out →
      out.ack = Ack.ok := by
  intro out heq
  unfold cycleStep at heq
  repeat' split at heq
  all_goals first
    | exact Option.noConfusion heq
    | (injection heq with h2; rw [← h2])

/-- C6: a frame whose headers carry eventname PROCESS_STATE_EXITED and
whose decoded payload carries an expected field parsing to 1 is
acknowledged OK without invoking the Notifier, whatever the allow-list,
webhook and Notifier are. -/
theorem C6_expected_exit_suppressed (program : List String)
    (webhook : Option String) (notify : String → Bool)
    (headers pset : TokenSet) (payload : List Nat)
    (ptext expStr : String)
    (hev : tsFind headers "eventname" = some "PROCESS_STATE_EXITED")
    (hdec : utf8Decode payload = some ptext)
    (hp : parse_token_set ptext = some pset)
    (hex : tsFind pset "expected" = some expStr)
    (hone : parseUsize expStr = some 1) :
    cycleStep program webhook notify headers payload = some ⟨Ack.ok, none⟩ := by
  simp [cycleStep, hev, hdec, hp, hex, hone]

theorem C6_expected_exit_suppressed_witness :
    cycleStep ["g:p"] (some "w") (fun _ => false)
      [("eventname", "PROCESS_STATE_EXITED")] (asciiBytes "expected:1") =
      some ⟨Ack.ok, none⟩ :=
  C6_expected_exit_suppressed ["g:p"] (some "w") (fun _ => false)
    [("eventname", "PROCESS_STATE_EXITED")] [("expected", "1")]
    (asciiBytes "expected:1") "expected:1" "1"
    (by decide) (by decide) (by decide) (by decide) (by decide)

/-- C7: a cycle that reaches the notification step acknowledges OK
whether the Notifier succeeds or fails, and the acknowledgement of a
cycle never depends on the Notifier's outcome at all. -/
theorem C7_notification_failure_still_ok :
    (∀ (program : List String) (webhook : Option String)
      (notify : String → Bool) (headers : TokenSet) (payload : List Nat)
      (out : CycleOut) (msg : String) (res : Bool),
      cycleStep program webhook notify headers payload = some out →
      out.notified = some (msg, res) →
      out.ack = Ack.ok) ∧
    (∀ (program : List String) (webhook : Option String)
      (nf ng : String → Bool) (headers : TokenSet) (payload : List Nat),
      Option.map CycleOut.ack (cycleStep program webhook nf headers payload) =
        Option.map CycleOut.ack (cycleStep program webhook ng headers payload)) := by
  constructor
  · intro program webhook notify headers payload out msg res heq _
    exact cycleStep_ack_eq_ok program webhook notify headers payload out heq
  · intro program webhook nf ng headers payload
    unfold cycleStep
    repeat' split
    all_goals rfl

theorem C7_notification_failure_still_ok_witness :
    (⟨Ack.ok, some (renderAlert "p" "g" "123" "RUNNING", false)⟩ : CycleOut).ack =
        Ack.ok ∧
      Option.map CycleOut.ack
          (cycleStep ["g:p"] (some "w") (fun _ => false)
            [("eventname", "PROCESS_STATE_EXITED")]
            (asciiBytes
              "groupname:g processname:p pid:123 expected:0 from_state:RUNNING")) =
        Option.map CycleOut.ack
          (cycleStep ["g:p"] (some "w") (fun _ => true)
            [("eventname", "PROCESS_STATE_EXITED")]
            (asciiBytes
              "groupname:g processname:p pid:123 expected:0 from_state:RUNNING")) :=
  ⟨C7_notification_failure_still_ok.1 ["g:p"] (some "w") (fun _ => false)
      [("eventname", "PROCESS_STATE_EXITED")]
      (asciiBytes "groupname:g processname:p pid:123 expected:0 from_state:RUNNING")
      ⟨Ack.ok, some (renderAlert "p" "g" "123" "RUNNING", false)⟩
      (renderAlert "p" "g" "123" "RUNNING") false (by decide) (by decide),
    C7_notification_failure_still_ok.2 ["g:p"] (some "w") (fun _ => false)
      (fun _ => true) [("eventname", "PROCESS_STATE_EXITED")]
      (asciiBytes
        "groupname:g processname:p pid:123 expected:0 from_state:RUNNING")⟩

/-- C9: the run loop never sends a FAIL acknowledgement: every cycle that
completes (is not a fatal termination) acknowledges OK, on every branch
of the classification. -/
theorem C9_run_loop_never_fail (program : List String)
    (webhook : Option String) (notify : String → Bool)
    (headers : TokenSet) (payload : List Nat) (out : CycleOut)
    (h : cycleStep program webhook notify headers payload = some out) :
    out.ack = Ack.ok ∧ out.ack ≠ Ack.fail := by
  have hok := cycleStep_ack_eq_ok program webhook notify headers payload out h
  exact ⟨hok, by rw [hok]; intro hcontra; exact Ack.noConfusion hcontra⟩

theorem C9_run_loop_never_fail_witness :
    (⟨Ack.ok, none⟩ : CycleOut).ack = Ack.ok ∧
      (⟨Ack.ok, none⟩ : CycleOut).ack ≠ Ack.fail :=
  C9_run_loop_never_fail [] none (fun _ => true)
    [("eventname", "PROCESS_STATE_RUNNING")] [] ⟨Ack.ok, none⟩ (by decide)

theorem dropWhile_eq_self_of_head (p : Char → Bool) (l : List Char)
    (h : ∀ c t, l = c :: t → p c = false) : l.dropWhile p = l := by
  cases l with
  | nil => rfl
  | cons c t =>
    have := h c t rfl
    simp [List.dropWhile_cons, this]

theorem trimChars_eq_self (l : List Char)
    (h1 : ∀ c t, l = c :: t → isWsp c = false)
    (h2 : ∀ c t, l.reverse = c :: t → isWsp c = false) :
    trimChars l = l := by
  unfold trimChars
  rw [dropWhile_eq_self_of_head isWsp l h1,
    dropWhile_eq_self_of_head isWsp l.reverse h2, List.reverse_reverse]

theorem joinSegs_one (s : List Char) : joinSegs [s] = s := rfl

theorem joinSegs_cons2 (s r : List Char) (rs : List (List Char)) :
    joinSegs (s :: r :: rs) = s ++ ' ' :: joinSegs (r :: rs) := rfl

theorem joinSegs_ne_nil (segs : List (List Char)) (h0 : segs ≠ [])
    (hne : ∀ s ∈ segs, s ≠ []) : joinSegs segs ≠ [] := by
  cases segs with
  | nil => exact absurd rfl h0
  | cons s rest =>
    cases rest with
    | nil =>
      rw [joinSegs_one]
      exact hne s (List.mem_cons_self s [])
    | cons r rs =>
      rw [joinSegs_cons2]
      simp

theorem joinSegs_head (segs : List (List Char))
    (hne : ∀ s ∈ segs, s ≠ [])
    (hw : ∀ s ∈ segs, ∀ c ∈ s, isWsp c = false) :
    ∀ c t, joinSegs segs = c :: t → isWsp c = false := by
  intro c t hj
  cases segs with
  | nil => rw [joinSegs] at hj; exact List.noConfusion hj
  | cons s rest =>
    cases hs : s with
    | nil => exact absurd hs (hne s (List.mem_cons_self s rest))
    | cons a s2 =>
      have haw := hw s (List.mem_cons_self s rest) a (by rw [hs]; exact List.mem_cons_self a s2)
      cases rest with
      | nil =>
        rw [joinSegs_one, hs] at hj
        cases hj
        exact haw
      | cons r rs =>
        rw [joinSegs_cons2, hs, List.cons_append] at hj
        cases hj
        exact haw

theorem joinSegs_last :
    ∀ segs : List (List Char), (∀ s ∈ segs, s ≠ []) →
      (∀ s ∈ segs, ∀ c ∈ s, isWsp c = false) →
      ∀ c t, (joinSegs segs).reverse = c :: t → isWsp c = false := by
  intro segs
  induction segs with
  | nil =>
    intro _ _ c t hj
    rw [joinSegs] at hj
    exact List.noConfusion hj
  | cons s rest ih =>
    intro hne hw c t hj
    cases rest with
    | nil =>
      rw [joinSegs_one] at hj
      have hcm : c ∈ s.reverse := by rw [hj]; exact List.mem_cons_self c t
      rw [List.mem_reverse] at hcm
      exact hw s (List.mem_cons_self s []) c hcm
    | cons r rs =>
      have hjne : joinSegs (r :: rs) ≠ [] :=
        joinSegs_ne_nil (r :: rs) (by simp)
          (fun x hx => hne x (List.mem_cons_of_mem s hx))
      cases hrev : (joinSegs (r :: rs)).reverse with
      | nil => exact absurd (by simpa using hrev) hjne
      | cons c0 t0 =>
        rw [joinSegs_cons2, List.reverse_append, List.reverse_cons, hrev] at hj
        simp only [List.cons_append, List.append_assoc] at hj
        cases hj
        exact ih (fun x hx => hne x (List.mem_cons_of_mem s hx))
          (fun x hx => hw x (List.mem_cons_of_mem s hx)) _ _ hrev

theorem splitSp_no_space (s : List Char) (h : ∀ c ∈ s, c ≠ ' ') :
    splitSp s = [s] := by
  induction s with
  | nil => rfl
  | cons c t ih =>
    have hc : c ≠ ' ' := h c (List.mem_cons_self c t)
    rw [splitSp, if_neg hc, ih (fun x hx => h x (List.mem_cons_of_mem c hx))]

theorem splitSp_append (s t : List Char) (h : ∀ c ∈ s, c ≠ ' ') :
    splitSp (s ++ ' ' :: t) = s :: splitSp t := by
  induction s with
  | nil => simp [splitSp]
  | cons c s2 ih =>
    have hc : c ≠ ' ' := h c (List.mem_cons_self c s2)
    rw [List.cons_append, splitSp, if_neg hc,
      ih (fun x hx => h x (List.mem_cons_of_mem c hx))]

theorem splitSp_joinSegs :
    ∀ segs : List (List Char), segs ≠ [] →
      (∀ s ∈ segs, ∀ c ∈ s, c ≠ ' ') →
      splitSp (joinSegs segs) = segs := by
  intro segs
  induction segs with
  | nil => intro h _; exact absurd rfl h
  | cons s rest ih =>
    intro _ hw
    cases rest with
    | nil =>
      rw [joinSegs_one]
      exact splitSp_no_space s (hw s (List.mem_cons_self s []))
    | cons r rs =>
      rw [joinSegs_cons2, splitSp_append s _ (hw s (List.mem_cons_self s (r :: rs))),
        ih (by simp) (fun x hx => hw x (List.mem_cons_of_mem s hx))]

theorem splitFirstColon_encode (k v : List Char) (hk : ':' ∉ k) :
    splitFirstColon (k ++ ':' :: v) = some (k, v) := by
  induction k with
  | nil => simp [splitFirstColon]
  | cons a k2 ih =>
    have ha : a ≠ ':' := fun heq => hk (heq ▸ List.mem_cons_self a k2)
    have ha2 : a = ':' → False := ha
    rw [List.cons_append, splitFirstColon, if_neg ha,
      ih (fun hm => hk (List.mem_cons_of_mem a hm))]

theorem mapTokens_encode :
    ∀ ps : List (String × String),
      (∀ p ∈ ps, ':' ∉ p.1.data) →
      mapTokens (ps.map (fun kv => kv.1.data ++ ':' :: kv.2.data)) = some ps := by
  intro ps
  induction ps with
  | nil => intro _; rfl
  | cons p rest ih =>
    intro h
    rw [List.map_cons, mapTokens]
    have h1 : splitOnceColon (p.1.data ++ ':' :: p.2.data) = some (p.1, p.2) := by
      rw [splitOnceColon, splitFirstColon_encode p.1.data p.2.data
        (h p (List.mem_cons_self p rest))]
      rfl
    rw [h1, ih (fun x hx => h x (List.mem_cons_of_mem p hx))]

theorem foldl_tsInsert_nodup :
    ∀ (ps : List (String × String)) (m : TokenSet),
      ((m.map Prod.fst) ++ ps.map Prod.fst).Nodup →
      ps.foldl (fun a kv => tsInsert a kv.1 kv.2) m = m ++ ps := by
  intro ps
  induction ps with
  | nil => intro m _; simp
  | cons p rest ih =>
    intro m hnd
    rw [List.map_cons] at hnd
    have hkey : p.1 ∉ m.map Prod.fst := by
      intro hmem
      have hdisj := (List.nodup_append.mp hnd).2.2
      exact hdisj hmem (List.mem_cons_self p.1 (rest.map Prod.fst))
    have hany : m.any (fun q => q.1 == p.1) = false := by
      by_contra hcon
      rw [Bool.not_eq_false, List.any_eq_true] at hcon
      obtain ⟨q, hq, hqq⟩ := hcon
      rw [beq_iff_eq] at hqq
      exact hkey (List.mem_map.mpr ⟨q, hq, hqq⟩)
    have hins : tsInsert m p.1 p.2 = m ++ [(p.1, p.2)] := by
      rw [tsInsert, if_neg (by simp [hany])]
    rw [List.foldl_cons, hins, ih (m ++ [(p.1, p.2)]) (by simpa using hnd)]
    simp

/-- C8 is refuted as stated: the pair list has no spaces in its keys, yet
encoding and then decoding does not reconstruct the mapping — the space
inside the value splits the line into a colon-free segment and the decode
fails outright. -/
theorem C8_roundtrip_counterexample :
    parse_token_set (encodeAsLine [("k", "a b")]) = none := by decide

/-- C8 (amended): for every token set given as a list of pairs with
pairwise distinct keys, where keys contain no whitespace and no colon and
values contain no whitespace, encoding the set as a single
space-separated key:value line and then decoding it reconstructs the
original mapping exactly, independent of the order in which the pairs
are emitted. -/
theorem C8_roundtrip_amended (ps : List (String × String))
    (hkeys : (ps.map Prod.fst).Nodup)
    (hgood : ∀ p ∈ ps,
      (∀ c ∈ p.1.data, isWsp c = false ∧ c ≠ ':') ∧
      (∀ c ∈ p.2.data, isWsp c = false)) :
    parse_token_set (encodeAsLine ps) = some ps := by
  cases hps : ps with
  | nil => decide
  | cons p0 rest =>
    rw [← hps]
    have hps0 : ps ≠ [] := by rw [hps]; simp
    have hwall : ∀ s ∈ ps.map (fun kv => kv.1.data ++ ':' :: kv.2.data),
        ∀ c ∈ s, isWsp c = false := by
      intro s hs c hc
      obtain ⟨kv, hkv, rfl⟩ := List.mem_map.mp hs
      rcases List.mem_append.mp hc with hk | hv
      · exact ((hgood kv hkv).1 c hk).1
      · rcases List.mem_cons.mp hv with rfl | hv2
        · decide
        · exact (hgood kv hkv).2 c hv2
    have hne : ∀ s ∈ ps.map (fun kv => kv.1.data ++ ':' :: kv.2.data), s ≠ [] := by
      intro s hs
      obtain ⟨kv, _, rfl⟩ := List.mem_map.mp hs
      simp
    have hsegs0 : ps.map (fun kv => kv.1.data ++ ':' :: kv.2.data) ≠ [] := by
      rw [hps]; simp
    have hnosp : ∀ s ∈ ps.map (fun kv => kv.1.data ++ ':' :: kv.2.data),
        ∀ c ∈ s, c ≠ ' ' := by
      intro s hs c hc heq
      have := hwall s hs c hc
      rw [heq] at this
      exact absurd this (by decide)
    rw [parse_token_set]
    have hdata : (encodeAsLine ps).data =
        joinSegs (ps.map (fun kv => kv.1.data ++ ':' :: kv.2.data)) := rfl
    rw [hdata, segmentsOf,
      trimChars_eq_self _ (joinSegs_head _ hne hwall) (joinSegs_last _ hne hwall),
      splitSp_joinSegs _ hsegs0 hnosp,
      List.filter_eq_self.mpr (fun s hs => by
        have := hne s hs
        cases s with
        | nil => exact absurd rfl this
        | cons a t => rfl),
      mapTokens_encode ps (fun p hp c => ((hgood p hp).1 ':' c).2 rfl)]
    rw [Option.map_some']
    rw [foldl_tsInsert_nodup ps [] (by simpa using hkeys)]
    rfl

theorem C8_roundtrip_amended_witness :
    parse_token_set (encodeAsLine [("k", "v"), ("a", "b:c")]) =
      some [("k", "v"), ("a", "b:c")] :=
  C8_roundtrip_amended [("k", "v"), ("a", "b:c")] (by decide) (by decide)
